import Mathlib

/-!
Verification development for the YMJ document tools
(`ymj_embed.py`, `ymj_search.py`, `ymj_validate.py`).

Python strings are modelled as `List Char`.  The external structured-data
codecs (PyYAML's `safe_load`/`dump` and the `json` module) are treated as
capabilities: a `Codecs` record of abstract functions, with the properties a
given theorem needs stated as hypotheses.  A small table-driven instance
(`toyCodecs`) is used to instantiate theorems at concrete inputs.

Numeric values (JSON numbers, embedding coordinates) are modelled as
integers: no claim below depends on non-integral coordinates, and the
ranking logic is uniform over any linearly ordered ring.  The IEEE result of
the unguarded `0.0 / 0.0` in `cosine_similarity` is modelled symbolically by
the score value `Score.nan`.
-/

/-- Python strings are modelled as lists of characters. -/
abbrev Str := List Char

/-- Coerce a Lean string literal to the model type. -/
def strChars (s : String) : Str := s.data

/-- The six ASCII characters recognised by Python's `str.strip` and by the
regex class `\s` (the exotic Unicode whitespace classes are not modelled;
no input in this development contains them). -/
def isSpace (c : Char) : Bool :=
  c = ' ' || c = '\t' || c = '\n' || c = '\r' || c = '\x0b' || c = '\x0c'

/-- Python `str.strip()`: remove leading and trailing whitespace. -/
def strip (s : Str) : Str :=
  ((s.dropWhile isSpace).reverse.dropWhile isSpace).reverse

/-- Index of the first occurrence of `pat` in `s` (Python `str.find`,
restricted to found-or-none). -/
def strFind (pat : Str) : Str → Option ℕ
  | [] => if pat.isPrefixOf ([] : Str) then some 0 else none
  | c :: t => if pat.isPrefixOf (c :: t) then some 0 else (strFind pat t).map (· + 1)

/-- Python slice `s[a:b]` (for `a ≤ b`). -/
def seg (s : Str) (a b : ℕ) : Str := (s.drop a).take (b - a)

/-- JSON/YAML-like structured values (the common shape of what
`yaml.safe_load` and `json.loads` return).  Objects are association lists
with distinct keys, in insertion order. -/
inductive JVal where
  | jnull : JVal
  | jbool : Bool → JVal
  | jnum : ℤ → JVal
  | jstr : Str → JVal
  | jarr : List JVal → JVal
  | jobj : List (Str × JVal) → JVal

/-- Lookup of a key in an object's association list (Python `dict` access;
keys are unique, so first match suffices). -/
def objGet (kvs : List (Str × JVal)) (k : Str) : Option JVal :=
  match kvs with
  | [] => none
  | (k', v) :: t => if k' = k then some v else objGet t k

/-- Python truthiness of a structured value. -/
def pyTruthy : JVal → Bool
  | .jnull => false
  | .jbool b => b
  | .jnum z => decide (z ≠ 0)
  | .jstr s => decide (s ≠ [])
  | .jarr xs => !xs.isEmpty
  | .jobj kvs => !kvs.isEmpty

/-- Exceptions of the Python code that are relevant to the tools.  Note
`jsonDecodeError` models `json.JSONDecodeError`, which is a subclass of
`ValueError`; `yamlError` models `yaml.YAMLError`, which is not. -/
inductive PyExc where
  | valueError : Str → PyExc
  | yamlError : PyExc
  | jsonDecodeError : PyExc
  | typeError : PyExc
  | attributeError : PyExc
  | keyError : PyExc
  | providerError : PyExc

/-- Equality test of a structured value against a string, as used by
Python's `in` on lists (`x == elem`; a `str` only ever equals a `str`). -/
def jvalIsStrEq (v : JVal) (s : Str) : Bool :=
  match v with
  | .jstr t => decide (t = s)
  | _ => false

/-- Python `needle in container` for a string needle: key membership on
dicts, element equality on lists, substring on strings, `TypeError`
otherwise. -/
def pyIn (needle : Str) : JVal → Except PyExc Bool
  | .jobj kvs => .ok (kvs.any (fun kv => decide (kv.1 = needle)))
  | .jarr xs => .ok (xs.any (fun v => jvalIsStrEq v needle))
  | .jstr s => .ok (strFind needle s).isSome
  | _ => .error .typeError

/-- Python subscript `container[key]` for a string key: dict lookup
(`KeyError` when absent), `TypeError` on any other container. -/
def pySubscr (v : JVal) (key : Str) : Except PyExc JVal :=
  match v with
  | .jobj kvs =>
    match objGet kvs key with
    | some x => .ok x
    | none => .error .keyError
  | _ => .error .typeError

/-! ### The regex `` ```json\s*\n(.*?)\n``` `` with `re.DOTALL`

`matchFence s` decides whether a match starts at position 0 of `s` and, if
so, returns the captured group, following the backtracking order of the
Python engine: the literal ```` ```json ````, then greedy `\s*` (longest
whitespace run first, backtracking downwards), a literal newline, then the
lazy group up to the nearest ``\n``` ``.  `reSearch` returns the leftmost
match (start position and group), exactly like `re.search`. -/

/-- The literal opening of the fenced block. -/
def fenceLit : Str := strChars "```json"

/-- The literal closing searched for by the lazy group. -/
def nlTicks : Str := strChars "\n```"

/-- Matching of `` \s*\n(.*?)\n``` `` against `u` (the text after the
literal ```` ```json ````), returning the captured group. -/
def afterJson (u : Str) : Option Str :=
  (((List.range (u.takeWhile isSpace).length).filter (fun k => u[k]? == some '\n')).reverse).findSome?
    (fun k => (strFind nlTicks (u.drop (k + 1))).map (fun m => (u.drop (k + 1)).take m))

/-- Match of the full fenced-block pattern at position 0. -/
def matchFence (s : Str) : Option Str :=
  if fenceLit.isPrefixOf s then afterJson (s.drop 7) else none

/-- Leftmost match of the fenced-block pattern: start position and group
(`re.search` semantics). -/
def reSearch : Str → Option (ℕ × Str)
  | [] => (matchFence []).map (fun g => (0, g))
  | c :: t =>
    match matchFence (c :: t) with
    | some g => some (0, g)
    | none => (reSearch t).map (fun p => (p.1 + 1, p.2))

example : reSearch (strChars "a\n```json\nbody\n```x") = some (2, strChars "body") := by rfl

example : strFind (strChars "---") (strChars "ab---c") = some 2 := by rfl

example : strip (strChars "\n hi \n") = strChars "hi" := by rfl

/-! ### The external structured-data codecs

`yaml.safe_load` / `yaml.dump` and `json.loads` / `json.dumps` are external
libraries (the spec treats them as a capability).  They are modelled as
abstract functions; `none` from a loader models a raised parse exception
(`yaml.YAMLError` resp. `json.JSONDecodeError`).  `ymj_embed.py` calls
`yaml.dump` twice (line 80 plain, line 96 with `default_flow_style=False`,
which is the PyYAML default), modelled as the single function `yamlDump`.
`json.dumps(..., indent=2)` is `jsonDumps`. -/
structure Codecs where
  yamlLoads : Str → Option JVal
  yamlDump : JVal → Str
  jsonLoads : Str → Option JVal
  jsonDumps : JVal → Str

/-- The message of the `ValueError` raised on a missing opening fence. -/
def msgMissingHeader : Str := strChars "Missing YAML header"

/-- The message of the `ValueError` raised on a missing closing fence. -/
def msgUnclosedHeader : Str := strChars "Unclosed YAML header"

/-- The three-dash fence marker. -/
def dash3 : Str := strChars "---"

/-- Python `content.find("---", 3)`. -/
def findFrom3 (s : Str) : Option ℕ := (strFind dash3 (s.drop 3)).map (· + 3)

/-- Model of `parse_ymj` (ymj_embed.py lines 24-48).  Faithful points: the
value returned by `yaml.safe_load` is passed through unchecked (it need not
be a mapping); footer extraction searches only the text after the closing
fence and decodes the first fenced block found; a `json.loads` failure
propagates out of `parse_ymj` (as a `JSONDecodeError`). -/
def parse_ymj (C : Codecs) (content : Str) : Except PyExc (JVal × Str × Option JVal) :=
  if dash3.isPrefixOf content then
    match findFrom3 content with
    | none => .error (.valueError msgUnclosedHeader)
    | some he =>
      match C.yamlLoads (strip (seg content 3 he)) with
      | none => .error .yamlError
      | some header =>
        let rest := content.drop (he + 3)
        match reSearch rest with
        | some (st, g) =>
          match C.jsonLoads g with
          | none => .error .jsonDecodeError
          | some footer => .ok (header, strip (rest.take st), some footer)
        | none => .ok (header, strip rest, none)
  else .error (.valueError msgMissingHeader)

/-- The file rebuild of `process_file` (ymj_embed.py lines 96-99):
`"---\n" + yaml.dump(header) + "---\n"` then a blank line, the narrative,
and the fenced JSON footer. -/
def serialize_ymj (C : Codecs) (header : JVal) (markdown : Str) (footer : JVal) : Str :=
  (strChars "---\n" ++ C.yamlDump header ++ strChars "---\n")
    ++ strChars "\n" ++ markdown
    ++ (strChars "\n```json\n" ++ C.jsonDumps footer ++ strChars "\n```\n")

/-- The skip test of `process_file` (line 75):
`footer and "index" in footer and "embedding" in footer["index"] and not force`,
with Python's left-to-right short-circuit evaluation; membership tests can
raise `TypeError` on non-container values. -/
def skipCheck (footer : Option JVal) (force : Bool) : Except PyExc Bool :=
  match footer with
  | none => .ok false
  | some f =>
    if pyTruthy f then
      match pyIn (strChars "index") f with
      | .error e => .error e
      | .ok false => .ok false
      | .ok true =>
        match pySubscr f (strChars "index") with
        | .error e => .error e
        | .ok idx =>
          match pyIn (strChars "embedding") idx with
          | .error e => .error e
          | .ok b => .ok (b && !force)
    else .ok false

/-- The `tags`/`title` extraction (lines 89-90): `header.get("tags", [])`
and `header.get("title", path.stem)`; raises `AttributeError` when the
header is not a mapping. -/
def headerTagsTitle (header : JVal) (stem : Str) : Except PyExc (JVal × JVal) :=
  match header with
  | .jobj kvs =>
    .ok ((objGet kvs (strChars "tags")).getD (.jarr []),
         (objGet kvs (strChars "title")).getD (.jstr stem))
  | _ => .error .attributeError

/-- The replacement footer built by `process_file` (lines 86-93). -/
def mkIndexFooter (tags title : JVal) (emb : List ℤ) : JVal :=
  .jobj [(strChars "schema", .jnum 1),
         (strChars "index",
          .jobj [(strChars "tags", tags),
                 (strChars "title", title),
                 (strChars "embedding", .jarr (emb.map .jnum))])]

/-- Observable outcome of one `process_file` call: the Python return value
(or an uncaught exception), the file content written (if any), and the
number of embedding-provider invocations. -/
structure ProcOut where
  result : Except PyExc Bool
  written : Option Str
  providerCalls : ℕ

/-- Model of `process_file` (ymj_embed.py lines 64-103), for a file whose
current content is `content` and whose `path.stem` is `stem`.  The
`except ValueError` on line 70 catches the two fence `ValueError`s and
`json.JSONDecodeError` (a `ValueError` subclass) but not `yaml.YAMLError`,
which propagates.  The provider (`embed_text`) is the abstract `prov`;
a provider exception propagates after the call was made. -/
def process_file (C : Codecs) (prov : Str → Except PyExc (List ℤ)) (stem : Str)
    (force : Bool) (content : Str) : ProcOut :=
  match parse_ymj C content with
  | .error (.valueError _) => ⟨.ok false, none, 0⟩
  | .error .jsonDecodeError => ⟨.ok false, none, 0⟩
  | .error e => ⟨.error e, none, 0⟩
  | .ok (header, markdown, footer) =>
    match skipCheck footer force with
    | .error e => ⟨.error e, none, 0⟩
    | .ok true => ⟨.ok true, none, 0⟩
    | .ok false =>
      let fullText := C.yamlDump header ++ strChars "\n" ++ markdown
      match prov fullText with
      | .error e => ⟨.error e, none, 1⟩
      | .ok emb =>
        match headerTagsTitle header stem with
        | .error e => ⟨.error e, none, 1⟩
        | .ok (tags, title) =>
          ⟨.ok true, some (serialize_ymj C header markdown (mkIndexFooter tags title emb)), 1⟩

/-- Model of the batch loop of `main` (ymj_embed.py lines 114-120): each
file is `(has .ymj suffix, stem, content)`; wrong-suffix files are skipped
with a notice; an uncaught exception from `process_file` aborts the whole
loop.  Returns the success tally. -/
def mainLoop (C : Codecs) (prov : Str → Except PyExc (List ℤ)) (force : Bool) :
    List (Bool × Str × Str) → Except PyExc ℕ
  | [] => .ok 0
  | (isYmj, stem, content) :: fs =>
    if isYmj then
      match (process_file C prov stem force content).result with
      | .error e => .error e
      | .ok b => (mainLoop C prov force fs).map (fun n => n + (if b then 1 else 0))
    else mainLoop C prov force fs


/-! ### Search (`ymj_search.py`) -/

/-- The `data.get("index", {}).get("embedding")` chain of
`extract_embedding` (line 37), applied to an already-decoded value.
`.get` on a non-dict raises `AttributeError` (uncaught in the tool). -/
def indexEmbeddingOf (data : JVal) : Except PyExc (Option JVal) :=
  match data with
  | .jobj kvs =>
    match (objGet kvs (strChars "index")).getD (.jobj []) with
    | .jobj kvs2 => .ok (objGet kvs2 (strChars "embedding"))
    | _ => .error .attributeError
  | _ => .error .attributeError

/-- Model of `extract_embedding` (ymj_search.py lines 29-39).  Faithful
point: the regex search runs over the whole file content, header included;
only `json.JSONDecodeError` is caught (mapped to `None`). -/
def extract_embedding (C : Codecs) (content : Str) : Except PyExc (Option JVal) :=
  match reSearch content with
  | none => .ok none
  | some (_, g) =>
    match C.jsonLoads g with
    | none => .ok none
    | some data => indexEmbeddingOf data

/-- Conversion of a decoded embedding value to a numeric vector
(`np.array(embedding)` followed by its use in `np.dot`): anything but a
flat list of numbers makes the numpy calls raise. -/
def jvalToVec : JVal → Option (List ℤ)
  | .jarr xs => allNums xs
  | _ => none
where
  /-- Numeric check of every element. -/
  allNums : List JVal → Option (List ℤ)
  | [] => some []
  | .jnum z :: t => (allNums t).map (z :: ·)
  | _ => none

/-- Sum of squares of a vector (the square of `np.linalg.norm`). -/
def sumsq (v : List ℤ) : ℤ := (v.map (fun z => z * z)).sum

/-- Dot product of two equal-length vectors. -/
def dotZ (a b : List ℤ) : ℤ := ((a.zip b).map (fun p => p.1 * p.2)).sum

/-- A defined cosine-similarity value `d / (√a * √b)` is represented by its
numerator and the two (positive) squared norms; comparisons are decided on
these data without square roots. -/
structure ScoreVal where
  d : ℤ
  a : ℤ
  b : ℤ
  ha : 0 < a
  hb : 0 < b

/-- A similarity score: either a defined value or the `nan` produced by the
unguarded `0.0 / 0.0`. -/
inductive Score where
  | nan : Score
  | val : ScoreVal → Score

/-- Model of `cosine_similarity` (ymj_search.py lines 24-26):
`np.dot(a, b) / (np.linalg.norm(a) * np.linalg.norm(b))`.  `np.dot` raises
`ValueError` on shape mismatch.  The norm product is zero — making the
unguarded division produce `nan` (the dot product is then also zero) —
exactly when not both squared norms are positive, since sums of squares
are nonnegative; the condition is phrased positively so the positivity
evidence is available in the value. -/
def cosine_similarity (a b : List ℤ) : Except PyExc Score :=
  if a.length = b.length then
    if h : 0 < sumsq a ∧ 0 < sumsq b then
      .ok (.val ⟨dotZ a b, sumsq a, sumsq b, h.1, h.2⟩)
    else .ok .nan
  else .error (.valueError (strChars "shapes not aligned"))

/-- The accumulation loop of `search` (ymj_search.py lines 61-70): walk the
corpus in directory-enumeration order, skip files without an extracted
embedding, score the rest; an uncaught exception aborts the search. -/
def scoreCorpus (C : Codecs) (qv : List ℤ) : List (Str × Str) → Except PyExc (List (Str × Score))
  | [] => .ok []
  | (p, c) :: rest =>
    match extract_embedding C c with
    | .error e => .error e
    | .ok none => scoreCorpus C qv rest
    | .ok (some emb) =>
      match jvalToVec emb with
      | none => .error .typeError
      | some v =>
        match cosine_similarity qv v with
        | .error e => .error e
        | .ok s => (scoreCorpus C qv rest).map ((p, s) :: ·)

/-- Comparison of two defined scores: `d₁/(√a₁·√b₁) ≤ d₂/(√a₂·√b₂)`,
decided by sign analysis and cross-multiplied squares. -/
def svLe (x y : ScoreVal) : Prop :=
  (x.d ≤ 0 ∧ 0 ≤ y.d)
  ∨ (0 < x.d ∧ 0 < y.d ∧ x.d * x.d * (y.a * y.b) ≤ y.d * y.d * (x.a * x.b))
  ∨ (x.d < 0 ∧ y.d < 0 ∧ y.d * y.d * (x.a * x.b) ≤ x.d * x.d * (y.a * y.b))

instance : ∀ x y : ScoreVal, Decidable (svLe x y) := fun x y => by
  unfold svLe; infer_instance

/-- Score comparison, mirroring Python float comparison: any comparison
involving `nan` is false, so the relation is false whenever either side is
`nan` and compares defined values by `svLe`.  With a `nan` key present the
comparator is therefore not a total preorder — exactly as in Python, where
`list.sort`'s result is then algorithm-dependent; the ordering theorems
below are accordingly restricted to lists of defined scores, and for
`nan`-carrying lists only membership (the sort being a permutation, true
of Python's sort for any comparator) is relied on. -/
def scoreLe : Score → Score → Prop
  | .val x, .val y => svLe x y
  | _, _ => False

instance : ∀ s t : Score, Decidable (scoreLe s t) := fun s t => by
  cases s <;> cases t <;> simp only [scoreLe] <;> infer_instance

/-- The comparison behind `results.sort(key=lambda x: -x[1])`: `x` may come
before `y` when `y`'s score is at most `x`'s. -/
def resLe (x y : Str × Score) : Prop := scoreLe y.2 x.2

instance : DecidableRel resLe := fun x y => by unfold resLe; infer_instance

/-- Model of `results.sort(key=lambda x: -x[1])` (line 72): a stable
ascending sort on the negated score, i.e. a stable descending sort on the
score.  When every key is defined the comparator is a total preorder and
any stable sort — CPython's Timsort as well as this insertion sort —
produces the same list; when a `nan` key is present both are permutations
of the input but their orders are comparator-incoherent and need not
agree, and no theorem below asserts more than membership in that case. -/
def sortResults (l : List (Str × Score)) : List (Str × Score) := List.insertionSort resLe l

/-- Model of `search` (ymj_search.py lines 55-75) up to its printed output:
the ranked `(path, score)` list that is printed, for a query embedding `qv`
and a corpus given as `(path, content)` pairs in directory-enumeration
order (`Path.rglob` yields files in arbitrary filesystem order; the model
takes that order as input). -/
def search (C : Codecs) (qv : List ℤ) (corpus : List (Str × Str)) (topK : ℕ) :
    Except PyExc (List (Str × Score)) :=
  (scoreCorpus C qv corpus).map (fun l => (sortResults l).take topK)

/-! ### Validation (`ymj_validate.py`) -/

/-- Error messages of `validate_file`, as in the source (messages that
interpolate an exception are modelled by their fixed prefix). -/
def msgVMissingHeader : Str := strChars "Missing YAML header (must start with ---)"

/-- Message for a missing closing fence. -/
def msgVUnclosedHeader : Str := strChars "Unclosed YAML header (missing closing ---)"

/-- Message prefix for a YAML parse failure. -/
def msgVInvalidYaml : Str := strChars "Invalid YAML:"

/-- Message for a non-mapping header. -/
def msgVNotMapping : Str := strChars "YAML header must be a mapping (dictionary)"

/-- Message for a missing doc_type field. -/
def msgVNoDocType : Str := strChars "Missing required field: doc_type"

/-- Message for a missing title field. -/
def msgVNoTitle : Str := strChars "Missing required field: title"

/-- Message for a missing schema field. -/
def msgVNoSchema : Str := strChars "JSON index missing 'schema' field"

/-- Message for a missing index field. -/
def msgVNoIndex : Str := strChars "JSON index missing 'index' field"

/-- Message for a missing embedding in strict mode. -/
def msgVNoEmbedding : Str := strChars "JSON index missing embedding (strict mode)"

/-- Message prefix for a JSON decode failure in the footer. -/
def msgVBadJson : Str := strChars "Invalid JSON in footer:"

/-- Message for a missing index block in strict mode. -/
def msgVNoBlock : Str := strChars "Missing JSON index block (strict mode)"

/-- The footer checks of `validate_file` (ymj_validate.py lines 65-77),
applied to the decoded footer value.  Faithful points: only
`json.JSONDecodeError` is caught by the surrounding `try`, so the `in`
tests and the `.get` raise uncaught `TypeError`/`AttributeError` when the
footer decodes to a non-container; evaluation order is `schema` membership
first, then `index` membership, then the `embedding` check. -/
def validateFooter (footer : JVal) (strict : Bool) (errs : List Str) :
    Except PyExc (List Str) :=
  match pyIn (strChars "schema") footer with
  | .error e => .error e
  | .ok hasSchema =>
    let errs1 := if hasSchema then errs else errs ++ [msgVNoSchema]
    match pyIn (strChars "index") footer with
    | .error e => .error e
    | .ok false => .ok (errs1 ++ [msgVNoIndex])
    | .ok true =>
      match footer with
      | .jobj kvs =>
        match pyIn (strChars "embedding") ((objGet kvs (strChars "index")).getD (.jobj [])) with
        | .error e => .error e
        | .ok true => .ok errs1
        | .ok false => if strict then .ok (errs1 ++ [msgVNoEmbedding]) else .ok errs1
      | _ => .error .attributeError

/-- Model of `validate_file` (ymj_validate.py lines 24-81) on the file's
content (the read itself is modelled as already successful).  Structural
failures short-circuit; field errors accumulate. -/
def validate_file (C : Codecs) (strict : Bool) (content : Str) : Except PyExc (List Str) :=
  if dash3.isPrefixOf content then
    match findFrom3 content with
    | none => .ok [msgVUnclosedHeader]
    | some he =>
      match C.yamlLoads (strip (seg content 3 he)) with
      | none => .ok [msgVInvalidYaml]
      | some header =>
        match header with
        | .jobj kvs =>
          let errs :=
            (if (objGet kvs (strChars "doc_type")).isSome then [] else [msgVNoDocType])
              ++ (if (objGet kvs (strChars "title")).isSome then [] else [msgVNoTitle])
          match reSearch (content.drop (he + 3)) with
          | some (_, g) =>
            match C.jsonLoads g with
            | none => .ok (errs ++ [msgVBadJson])
            | some footer => validateFooter footer strict errs
          | none => if strict then .ok (errs ++ [msgVNoBlock]) else .ok errs
        | _ => .ok [msgVNotMapping]
  else .ok [msgVMissingHeader]

/-! ### A concrete table-driven codec instance

Used to instantiate theorems at concrete inputs.  The tables contain only
the strings and values appearing in those inputs; behaviour on the listed
entries is consistent with the real PyYAML/json behaviour on the
corresponding real payloads. -/

/-- Header `title: t`. -/
def h0 : JVal := .jobj [(strChars "title", .jstr (strChars "t"))]

/-- Header with both required validator fields. -/
def hx : JVal := .jobj [(strChars "title", .jstr (strChars "x")),
                        (strChars "doc_type", .jstr (strChars "y"))]

/-- Header whose YAML source contains a fenced block inside a literal
block scalar. -/
def hdrK : JVal := .jobj [(strChars "k", .jstr (strChars "v"))]

/-- A decoded footer with `index.embedding = [z]`. -/
def embFooter (z : ℤ) : JVal :=
  .jobj [(strChars "index", .jobj [(strChars "embedding", .jarr [.jnum z])])]

/-- A decoded footer without an `index` key. -/
def footerA : JVal := .jobj [(strChars "a", .jnum 1)]

/-- The footer `process_file` builds for header `h0` and embedding `[1]`. -/
def F1 : JVal := mkIndexFooter (.jarr []) (.jstr (strChars "t")) [1]

/-- Table-driven model of `yaml.safe_load` on the sources used below. -/
def toyYamlLoads (s : Str) : Option JVal :=
  if s = strChars "title: t" then some h0
  else if s = strChars "hello" then some (.jstr (strChars "hello"))
  else if s = strChars "title: x\ndoc_type: y" then some hx
  else if s = strChars "k: |\n  ```json\n  E9\n  ```" then some hdrK
  else none

/-- Table-driven model of `yaml.dump` on the headers used below. -/
def toyYamlDump : JVal → Str
  | .jobj ((k, .jstr w) :: []) => k ++ strChars ": " ++ w ++ strChars "\n"
  | _ => strChars "z: z\n"

/-- Table-driven model of `json.loads` on the payloads used below
(`E…`/`F…` stand for short JSON payload texts). -/
def toyJsonLoads (s : Str) : Option JVal :=
  if s = strChars "F1" then some F1
  else if s = strChars "E0" then some (embFooter 0)
  else if s = strChars "E1" then some (embFooter 1)
  else if s = strChars "E2" then some footerA
  else if s = strChars "E3" then some JVal.jnull
  else if s = strChars "E7" then some (.jnum 7)
  else none

/-- Model of `json.dumps` for the one footer value serialised below. -/
def toyJsonDumps : JVal → Str := fun _ => strChars "F1"

/-- The concrete codec bundle. -/
def toyCodecs : Codecs := ⟨toyYamlLoads, toyYamlDump, toyJsonLoads, toyJsonDumps⟩

/-- A deterministic stub embedding provider returning the vector `[1]`. -/
def toyProv : Str → Except PyExc (List ℤ) := fun _ => .ok [1]

example : parse_ymj toyCodecs (strChars "---\nhello\n---\nworld")
    = .ok (.jstr (strChars "hello"), strChars "world", none) := by rfl

example : process_file toyCodecs toyProv (strChars "s") false (strChars "---\ntitle: t\n---\nbody")
    = ⟨.ok true, some (strChars "---\ntitle: t\n---\n\nbody\n```json\nF1\n```\n"), 1⟩ := by rfl

/-! ### Supporting lemmas about occurrences and the searches -/

/-- `pat` occurs in `s` at position `j`. -/
def Occ (pat s : Str) (j : ℕ) : Prop := pat.isPrefixOf (s.drop j) = true

theorem occ_zero {pat s : Str} : Occ pat s 0 ↔ pat.isPrefixOf s = true := Iff.rfl

theorem occ_cons_succ {pat : Str} {c : Char} {t : Str} {j : ℕ} :
    Occ pat (c :: t) (j + 1) ↔ Occ pat t j := Iff.rfl

theorem getElem?_drop' (l : List Char) (n i : ℕ) : (l.drop n)[i]? = l[n + i]? := by
  induction l generalizing n with
  | nil => simp
  | cons c t ih =>
    cases n with
    | zero => simp
    | succ m =>
      simp only [List.drop_succ_cons, ih m, Nat.succ_add, List.getElem?_cons_succ]

theorem occ_iff_getElem (pat s : Str) (j : ℕ) :
    Occ pat s j ↔ ∀ i < pat.length, s[j + i]? = pat[i]? := by
  unfold Occ
  rw [List.isPrefixOf_iff_prefix, List.prefix_iff_eq_take]
  constructor
  · intro h i hi
    rw [← getElem?_drop' s j i]
    conv_rhs => rw [h]
    rw [List.getElem?_take_of_lt hi]
  · intro h
    apply List.ext_getElem?
    intro n
    rcases Nat.lt_or_ge n pat.length with hn | hn
    · rw [List.getElem?_take_of_lt hn, getElem?_drop' s j n, h n hn]
    · rw [List.getElem?_eq_none hn, List.getElem?_eq_none]
      exact le_trans (by rw [List.length_take]; exact Nat.min_le_left _ _) hn

theorem strFind_none_not_occ {pat s : Str} (h : strFind pat s = none) :
    ∀ j, ¬ Occ pat s j := by
  induction s with
  | nil =>
    intro j hocc
    unfold Occ at hocc
    simp only [List.drop_nil] at hocc
    unfold strFind at h
    rw [if_pos hocc] at h
    exact Option.some_ne_none _ h
  | cons c t ih =>
    intro j hocc
    unfold strFind at h
    by_cases hp : pat.isPrefixOf (c :: t) = true
    · rw [if_pos hp] at h; exact Option.some_ne_none _ h
    · rw [if_neg hp] at h
      cases j with
      | zero => exact hp (occ_zero.mp hocc)
      | succ m =>
        have ht : strFind pat t = none := by
          cases hft : strFind pat t with
          | none => rfl
          | some k => rw [hft] at h; simp at h
        exact ih ht m (occ_cons_succ.mp hocc)

theorem strFind_some_of {pat s : Str} {n : ℕ} (hbef : ∀ j < n, ¬ Occ pat s j)
    (hat : Occ pat s n) : strFind pat s = some n := by
  induction s generalizing n with
  | nil =>
    cases n with
    | zero =>
      have h0 : pat.isPrefixOf ([] : Str) = true := by
        have := hat
        unfold Occ at this
        simpa using this
      unfold strFind; rw [if_pos h0]
    | succ m =>
      exfalso
      have h0 : Occ pat ([] : Str) 0 := by
        have := hat
        unfold Occ at this ⊢
        simpa using this
      exact hbef 0 (Nat.succ_pos m) h0
  | cons c t ih =>
    cases n with
    | zero =>
      unfold strFind; rw [if_pos (occ_zero.mp hat)]
    | succ m =>
      have hp : ¬ pat.isPrefixOf (c :: t) = true := fun hp =>
        hbef 0 (Nat.succ_pos m) (occ_zero.mpr hp)
      unfold strFind
      rw [if_neg hp]
      rw [ih (fun j hj hocc => hbef (j + 1) (Nat.succ_lt_succ hj) hocc) (occ_cons_succ.mp hat)]
      rfl

theorem matchFence_none_of_not_occ {s : Str} {j : ℕ} (h : ¬ Occ fenceLit s j) :
    matchFence (s.drop j) = none := by
  unfold Occ at h
  unfold matchFence
  rw [if_neg h]

theorem reSearch_some_of {s : Str} {i : ℕ} {g : Str}
    (hbef : ∀ j < i, matchFence (s.drop j) = none)
    (hat : matchFence (s.drop i) = some g) : reSearch s = some (i, g) := by
  induction i generalizing s with
  | zero =>
    simp only [List.drop_zero] at hat
    cases s with
    | nil => rw [show matchFence ([] : Str) = none from rfl] at hat; exact absurd hat (by simp)
    | cons c t => rw [reSearch, hat]
  | succ m ih =>
    have h0 : matchFence s = none := by simpa using hbef 0 (Nat.succ_pos m)
    cases s with
    | nil =>
      exfalso
      simp only [List.drop_nil] at hat h0
      rw [h0] at hat; exact Option.noConfusion hat
    | cons c t =>
      rw [reSearch, h0]
      rw [ih (fun j hj => by simpa using hbef (j + 1) (Nat.succ_lt_succ hj)) (by simpa using hat)]
      rfl

theorem reSearch_some_elim {s : Str} {i : ℕ} {g : Str} (h : reSearch s = some (i, g)) :
    (∀ j < i, matchFence (s.drop j) = none) ∧ matchFence (s.drop i) = some g := by
  induction s generalizing i with
  | nil =>
    rw [reSearch, show matchFence ([] : Str) = none from rfl] at h
    exact absurd h (by simp)
  | cons c t ih =>
    rw [reSearch] at h
    cases hmf : matchFence (c :: t) with
    | some g' =>
      rw [hmf] at h
      simp only [Option.some.injEq, Prod.mk.injEq] at h
      obtain ⟨hi, hg⟩ := h
      subst hi; subst hg
      exact ⟨fun j hj => absurd hj (Nat.not_lt_zero j), by simpa using hmf⟩
    | none =>
      rw [hmf] at h
      cases hre : reSearch t with
      | none => rw [hre] at h; exact absurd h (by simp)
      | some p =>
        rw [hre] at h
        simp only [Option.map_some', Option.some.injEq] at h
        obtain ⟨p1, p2⟩ := p
        cases i with
        | zero => exact absurd (congrArg Prod.fst h) (by simp)
        | succ m =>
          have hfst : p1 = m := by
            have := congrArg Prod.fst h
            simpa using this
          have hsnd : p2 = g := by
            have := congrArg Prod.snd h
            simpa using this
          subst hfst; subst hsnd
          obtain ⟨ihb, iha⟩ := ih hre
          refine ⟨?_, by simpa using iha⟩
          intro j hj
          cases j with
          | zero => simpa using hmf
          | succ jj => simpa using ihb jj (Nat.lt_of_succ_lt_succ hj)

theorem isPrefixOf_append_self (p s : Str) : p.isPrefixOf (p ++ s) = true := by
  rw [List.isPrefixOf_iff_prefix]
  exact List.prefix_append p s

theorem noOcc_dash3_hdr (Y R : Str) (hY : strFind dash3 Y = none)
    (hYnl : Y.getLast? = some '\n') :
    ∀ j < 1 + Y.length, ¬ Occ dash3 (('\n' :: Y) ++ R) j := by
  intro j hj hocc
  rw [occ_iff_getElem] at hocc
  have hdl : dash3.length = 3 := by decide
  have hdc : ∀ i < 3, dash3[i]? = some '-' := by decide
  have hYne : Y ≠ [] := by
    intro he; rw [he] at hYnl; exact Option.noConfusion hYnl
  cases j with
  | zero =>
    have h0 := hocc 0 (by rw [hdl]; omega)
    rw [List.getElem?_append_left (by simp)] at h0
    rw [hdc 0 (by omega)] at h0
    simp at h0
  | succ jj =>
    rcases Nat.lt_or_ge (jj + 3) Y.length with hin | hbd
    · -- the occurrence would lie inside Y
      have : Occ dash3 Y jj := by
        rw [occ_iff_getElem]
        intro i hi
        rw [hdl] at hi
        have h := hocc i (by rw [hdl]; omega)
        rw [List.getElem?_append_left (by simp; omega)] at h
        rw [show jj + 1 + i = (jj + i) + 1 by omega] at h
        rw [List.getElem?_cons_succ] at h
        exact h
      exact strFind_none_not_occ hY jj this
    · -- the occurrence would cover the final newline of Y
      have hi0 : Y.length - (jj + 1) < 3 := by omega
      have h := hocc (Y.length - (jj + 1)) (by rw [hdl]; omega)
      rw [show jj + 1 + (Y.length - (jj + 1)) = Y.length by omega] at h
      rw [List.getElem?_append_left (by simp)] at h
      have hYg : ('\n' :: Y)[Y.length]? = some '\n' := by
        have hlen : Y.length = (Y.length - 1) + 1 := by
          cases Y with
          | nil => exact absurd rfl hYne
          | cons a b => simp
        rw [hlen, List.getElem?_cons_succ, ← List.getLast?_eq_getElem?]
        exact hYnl
      rw [hYg, hdc _ hi0] at h
      simp at h

theorem find3_of_hdr (Y T : Str) (hY : strFind dash3 Y = none)
    (hYnl : Y.getLast? = some '\n') :
    strFind dash3 (('\n' :: Y) ++ (dash3 ++ T)) = some (1 + Y.length) := by
  apply strFind_some_of
  · exact noOcc_dash3_hdr Y (dash3 ++ T) hY hYnl
  · unfold Occ
    rw [List.drop_left' (by simp [Nat.add_comm])]
    exact isPrefixOf_append_self dash3 T

theorem noOcc_fence_md (md suf : Str) (hmd : strFind fenceLit md = none) :
    ∀ j < md.length + 3, ¬ Occ fenceLit (('\n' :: '\n' :: (md ++ ['\n'])) ++ suf) j := by
  intro j hj hocc
  rw [occ_iff_getElem] at hocc
  have hfl : fenceLit.length = 7 := by decide
  have hf0 : fenceLit[0]? = some '`' := by decide
  have hfnl : ∀ i < 7, fenceLit[i]? ≠ some '\n' := by decide
  have hAl : ('\n' :: '\n' :: (md ++ ['\n'])).length = md.length + 3 := by simp
  match j, hj with
  | 0, _ =>
    have h0 := hocc 0 (by rw [hfl]; omega)
    rw [List.getElem?_append_left (by rw [hAl]; omega), hf0] at h0
    simp at h0
  | 1, _ =>
    have h0 := hocc 0 (by rw [hfl]; omega)
    rw [List.getElem?_append_left (by rw [hAl]; omega), hf0] at h0
    simp at h0
  | (jj + 2), hj =>
    rcases Nat.lt_or_ge (jj + 7) (md.length + 1) with hin | hbd
    · have : Occ fenceLit md jj := by
        rw [occ_iff_getElem]
        intro i hi
        rw [hfl] at hi
        have h := hocc i (by rw [hfl]; omega)
        rw [List.getElem?_append_left (by rw [hAl]; omega)] at h
        rw [show jj + 2 + i = ((jj + i) + 1) + 1 by omega] at h
        rw [List.getElem?_cons_succ, List.getElem?_cons_succ] at h
        rw [List.getElem?_append_left (by omega)] at h
        exact h
      exact strFind_none_not_occ hmd jj this
    · have hjm : jj < md.length + 1 := by omega
      have hi0 : md.length - jj < 7 := by omega
      have h := hocc (md.length - jj) (by rw [hfl]; omega)
      rw [show jj + 2 + (md.length - jj) = (md.length + 1) + 1 by omega] at h
      rw [List.getElem?_append_left (by rw [hAl]; omega)] at h
      rw [List.getElem?_cons_succ, List.getElem?_cons_succ] at h
      rw [List.getElem?_append_right (by omega)] at h
      rw [show md.length - md.length = 0 by omega] at h
      simp only [List.getElem?_cons_zero] at h
      exact hfnl _ hi0 h.symm

theorem strFind_nlTicks_after (J tail : Str) (hJ : strFind nlTicks J = none) :
    strFind nlTicks (J ++ (nlTicks ++ tail)) = some J.length := by
  have htl : nlTicks.length = 4 := by decide
  have htnl : ∀ i, 1 ≤ i → i < 4 → nlTicks[i]? ≠ some '\n' := by decide
  apply strFind_some_of
  · intro j hj hocc
    rw [occ_iff_getElem] at hocc
    rcases Nat.lt_or_ge (j + 4) (J.length + 1) with hin | hbd
    · have : Occ nlTicks J j := by
        rw [occ_iff_getElem]
        intro i hi
        rw [htl] at hi
        have h := hocc i (by rw [htl]; omega)
        rw [List.getElem?_append_left (by omega)] at h
        exact h
      exact strFind_none_not_occ hJ j this
    · have hi0a : 1 ≤ J.length - j := by omega
      have hi0b : J.length - j < 4 := by omega
      have h := hocc (J.length - j) (by rw [htl]; omega)
      rw [show j + (J.length - j) = J.length by omega] at h
      rw [List.getElem?_append_right (by omega)] at h
      rw [show J.length - J.length = 0 by omega] at h
      rw [show (nlTicks ++ tail)[0]? = some '\n' by
        rw [List.getElem?_append_left (by decide)]; decide] at h
      exact htnl _ hi0a hi0b h.symm
  · unfold Occ
    rw [List.drop_left]
    exact isPrefixOf_append_self nlTicks tail

theorem afterJson_eval (c : Char) (J' tail : Str) (hc : isSpace c = false)
    (hJ : strFind nlTicks (c :: J') = none) :
    afterJson ('\n' :: ((c :: J') ++ (nlTicks ++ tail))) = some (c :: J') := by
  have hW : (('\n' :: ((c :: J') ++ (nlTicks ++ tail))).takeWhile isSpace).length = 1 := by
    rw [List.takeWhile_cons_of_pos (by decide)]
    rw [show (c :: J') ++ (nlTicks ++ tail) = c :: (J' ++ (nlTicks ++ tail)) by simp]
    rw [List.takeWhile_cons_of_neg (by simp [hc])]
    simp
  have hsingle : ∀ F : ℕ → Option Str, List.findSome? F [0] = F 0 := by
    intro F
    cases hF : F 0 with
    | none => simp [List.findSome?_cons, hF]
    | some b => simp [List.findSome?_cons, hF]
  unfold afterJson
  rw [hW]
  rw [show ((List.range 1).filter
      (fun k => ('\n' :: ((c :: J') ++ (nlTicks ++ tail)))[k]? == some '\n')).reverse
      = [0] from rfl]
  rw [hsingle]
  rw [show ('\n' :: ((c :: J') ++ (nlTicks ++ tail))).drop (0 + 1)
      = (c :: J') ++ (nlTicks ++ tail) from rfl]
  rw [strFind_nlTicks_after _ _ hJ]
  simp only [Option.map_some']
  rw [List.take_left]

theorem strip_cons_ws {c : Char} (h : isSpace c = true) (s : Str) :
    strip (c :: s) = strip s := by
  unfold strip
  rw [List.dropWhile_cons_of_pos h]

theorem strip_concat_ws {c : Char} (h : isSpace c = true) (s : Str) :
    strip (s ++ [c]) = strip s := by
  unfold strip
  rw [List.dropWhile_append]
  cases hds : s.dropWhile isSpace with
  | nil =>
    simp only [List.isEmpty_nil, if_true]
    rw [List.dropWhile_cons_of_pos h]
    simp
  | cons d ds =>
    simp only [List.isEmpty_cons, if_false, Bool.false_eq_true]
    rw [List.reverse_append]
    simp only [List.reverse_cons, List.reverse_nil, List.nil_append, List.singleton_append]
    rw [List.dropWhile_cons_of_pos h]

/-- Indexed head test used as a decidable hypothesis: the string is nonempty
and does not start with whitespace (true of `json.dumps` output, which
starts with a brace or bracket). -/
def headNotSpace : Str → Bool
  | [] => false
  | d :: _ => !isSpace d

theorem headNotSpace_elim {s : Str} (h : headNotSpace s = true) :
    ∃ d t, s = d :: t ∧ isSpace d = false := by
  cases s with
  | nil => exact absurd h (by simp [headNotSpace])
  | cons d t =>
    refine ⟨d, t, rfl, ?_⟩
    unfold headNotSpace at h
    simpa using h

theorem serialize_eq (C : Codecs) (h : JVal) (md : Str) (f : JVal) :
    serialize_ymj C h md f
      = '-' :: '-' :: '-' :: '\n' ::
        ((C.yamlDump h) ++ (dash3 ++ ('\n' :: '\n' :: ((md ++ ['\n'])
          ++ (fenceLit ++ ('\n' :: ((C.jsonDumps f) ++ (nlTicks ++ ['\n'])))))))) := by
  have e1 : strChars "---\n" = ['-', '-', '-', '\n'] := rfl
  have e2 : strChars "\n" = ['\n'] := rfl
  have e3 : strChars "\n```json\n" = '\n' :: (fenceLit ++ ['\n']) := rfl
  have e4 : strChars "\n```\n" = nlTicks ++ ['\n'] := rfl
  have e5 : dash3 = ['-', '-', '-'] := rfl
  simp only [serialize_ymj, e1, e2, e3, e4, e5, List.cons_append, List.nil_append,
    List.append_assoc]

theorem parse_serialize (C : Codecs) (hh h2 : JVal) (md : Str) (f : JVal)
    (hYnl : (C.yamlDump hh).getLast? = some '\n')
    (hY3 : strFind dash3 (C.yamlDump hh) = none)
    (hYload : C.yamlLoads (strip (C.yamlDump hh)) = some h2)
    (hmd : strFind fenceLit md = none)
    (hJhd : headNotSpace (C.jsonDumps f) = true)
    (hJcl : strFind nlTicks (C.jsonDumps f) = none)
    (hJload : C.jsonLoads (C.jsonDumps f) = some f) :
    parse_ymj C (serialize_ymj C hh md f) = .ok (h2, strip md, some f) := by
  obtain ⟨d, J', hJeq, hd⟩ := headNotSpace_elim hJhd
  rw [serialize_eq]
  set Y := C.yamlDump hh with hYdef
  set J := C.jsonDumps f with hJdef
  set suf2 := fenceLit ++ ('\n' :: (J ++ (nlTicks ++ ['\n']))) with hsuf2
  set R := ('\n' : Char) :: '\n' :: ((md ++ ['\n']) ++ suf2) with hR
  set content' := ('-' : Char) :: '-' :: '-' :: '\n' :: (Y ++ (dash3 ++ R)) with hcontent
  have F1 : dash3.isPrefixOf content' = true := by rw [hcontent]; rfl
  have F2 : findFrom3 content' = some (1 + Y.length + 3) := by
    unfold findFrom3
    rw [show content'.drop 3 = ('\n' :: Y) ++ (dash3 ++ R) from by rw [hcontent]; rfl]
    rw [find3_of_hdr _ _ hY3 hYnl]
    rfl
  have F3 : seg content' 3 (1 + Y.length + 3) = '\n' :: Y := by
    unfold seg
    rw [show content'.drop 3 = ('\n' :: Y) ++ (dash3 ++ R) from by rw [hcontent]; rfl]
    rw [show 1 + Y.length + 3 - 3 = 1 + Y.length from by omega]
    rw [List.take_left' (by simp [Nat.add_comm])]
  have F5 : content'.drop (1 + Y.length + 3 + 3) = R := by
    rw [show 1 + Y.length + 3 + 3 = 4 + (Y.length + 3) from by omega]
    rw [← List.drop_drop]
    rw [show content'.drop 4 = Y ++ (dash3 ++ R) from by rw [hcontent]; rfl]
    rw [show Y.length + 3 = Y.length + 3 from rfl, ← List.drop_drop]
    rw [List.drop_left]
    rw [List.drop_left' (by decide)]
  have F6 : reSearch R = some (md.length + 3, J) := by
    apply reSearch_some_of
    · intro j hj
      apply matchFence_none_of_not_occ
      exact noOcc_fence_md md suf2 hmd j hj
    · rw [show R.drop (md.length + 3) = suf2 from by
        rw [hR, show (('\n' : Char) :: '\n' :: ((md ++ ['\n']) ++ suf2))
            = (('\n' : Char) :: '\n' :: (md ++ ['\n'])) ++ suf2 from by simp]
        rw [List.drop_left' (by simp)]]
      rw [hsuf2]
      unfold matchFence
      rw [if_pos (isPrefixOf_append_self _ _)]
      rw [List.drop_left' (by decide)]
      rw [hJeq]
      have := afterJson_eval d J' ['\n'] hd (by rw [← hJeq]; exact hJcl)
      rw [this, ← hJeq]
  have F8 : strip (R.take (md.length + 3)) = strip md := by
    rw [hR, show (('\n' : Char) :: '\n' :: ((md ++ ['\n']) ++ suf2))
        = (('\n' : Char) :: '\n' :: (md ++ ['\n'])) ++ suf2 from by simp]
    rw [List.take_left' (by simp)]
    rw [strip_cons_ws (by decide), strip_cons_ws (by decide), strip_concat_ws (by decide)]
  have F4 : strip ('\n' :: Y) = strip Y := strip_cons_ws (by decide) Y
  unfold parse_ymj
  rw [if_pos F1]
  rw [F2]
  simp only []
  rw [F3, F4, hYload]
  simp only []
  rw [F5, F6]
  simp only []
  rw [hJload, F8]

/-! ### Order properties of the score comparison -/

theorem svLe_total (x y : ScoreVal) : svLe x y ∨ svLe y x := by
  unfold svLe
  rcases le_or_lt x.d 0 with hx | hx
  · rcases le_or_lt 0 y.d with hy | hy
    · exact Or.inl (Or.inl ⟨hx, hy⟩)
    · rcases lt_or_eq_of_le hx with hx' | hx'
      · rcases le_total (y.d * y.d * (x.a * x.b)) (x.d * x.d * (y.a * y.b)) with h | h
        · exact Or.inl (Or.inr (Or.inr ⟨hx', hy, h⟩))
        · exact Or.inr (Or.inr (Or.inr ⟨hy, hx', h⟩))
      · exact Or.inr (Or.inl ⟨le_of_lt hy, le_of_eq hx'.symm⟩)
  · rcases le_or_lt y.d 0 with hy | hy
    · exact Or.inr (Or.inl ⟨hy, le_of_lt hx⟩)
    · rcases le_total (x.d * x.d * (y.a * y.b)) (y.d * y.d * (x.a * x.b)) with h | h
      · exact Or.inl (Or.inr (Or.inl ⟨hx, hy, h⟩))
      · exact Or.inr (Or.inr (Or.inl ⟨hy, hx, h⟩))

theorem svLe_trans {x y z : ScoreVal} (h1 : svLe x y) (h2 : svLe y z) : svLe x z := by
  have hxa := x.ha; have hxb := x.hb
  have hya := y.ha; have hyb := y.hb
  have hza := z.ha; have hzb := z.hb
  unfold svLe at h1 h2 ⊢
  rcases h1 with ⟨hd1, hd2⟩ | ⟨hd1, hd2, hle1⟩ | ⟨hd1, hd2, hle1⟩
  · rcases h2 with ⟨he1, he2⟩ | ⟨he1, he2, hle2⟩ | ⟨he1, he2, hle2⟩
    · exact Or.inl ⟨hd1, he2⟩
    · exact Or.inl ⟨hd1, le_of_lt he2⟩
    · exact absurd hd2 (not_le_of_lt he1)
  · rcases h2 with ⟨he1, he2⟩ | ⟨he1, he2, hle2⟩ | ⟨he1, he2, hle2⟩
    · exact absurd he1 (not_le_of_lt hd2)
    · refine Or.inr (Or.inl ⟨hd1, he2, ?_⟩)
      nlinarith [mul_le_mul_of_nonneg_right hle1 (le_of_lt (mul_pos hza hzb)),
        mul_le_mul_of_nonneg_right hle2 (le_of_lt (mul_pos hxa hxb)),
        mul_pos hya hyb, mul_pos hxa hxb, mul_pos hza hzb]
    · exact absurd hd2 (not_lt_of_le (le_of_lt he1)).elim
  · rcases h2 with ⟨he1, he2⟩ | ⟨he1, he2, hle2⟩ | ⟨he1, he2, hle2⟩
    · exact Or.inl ⟨le_of_lt hd1, he2⟩
    · exact absurd he1 (not_lt_of_le (le_of_lt hd2)).elim
    · refine Or.inr (Or.inr ⟨hd1, he2, ?_⟩)
      nlinarith [mul_le_mul_of_nonneg_right hle1 (le_of_lt (mul_pos hza hzb)),
        mul_le_mul_of_nonneg_right hle2 (le_of_lt (mul_pos hxa hxb)),
        mul_pos hya hyb, mul_pos hxa hxb, mul_pos hza hzb]

theorem resLe_total_of_val {a b : Str × Score} (ha : a.2 ≠ Score.nan)
    (hb : b.2 ≠ Score.nan) : resLe a b ∨ resLe b a := by
  obtain ⟨pa, sa⟩ := a
  obtain ⟨pb, sb⟩ := b
  cases sa with
  | nan => exact absurd rfl ha
  | val va =>
    cases sb with
    | nan => exact absurd rfl hb
    | val vb => exact (svLe_total vb va).imp id id

theorem resLe_trans' {a b c : Str × Score} (h1 : resLe a b) (h2 : resLe b c) :
    resLe a c := by
  obtain ⟨pa, sa⟩ := a
  obtain ⟨pb, sb⟩ := b
  obtain ⟨pc, sc⟩ := c
  cases sa with
  | nan => exact absurd h1 (by cases sb <;> simp [resLe, scoreLe])
  | val va =>
    cases sb with
    | nan => exact absurd h1 (by simp [resLe, scoreLe])
    | val vb =>
      cases sc with
      | nan => exact absurd h2 (by simp [resLe, scoreLe])
      | val vc => exact svLe_trans h2 h1

/-- Inserting an element with a defined score into a sorted list of
defined scores keeps it sorted (the comparator is a total preorder on
defined scores). -/
theorem sorted_orderedInsert_val (a : Str × Score) (L : List (Str × Score))
    (haL : a.2 ≠ Score.nan) (hL : ∀ x ∈ L, x.2 ≠ Score.nan)
    (hs : List.Sorted resLe L) :
    List.Sorted resLe (List.orderedInsert resLe a L) := by
  induction L with
  | nil => simp [List.orderedInsert]
  | cons b t ih =>
    by_cases hr : resLe a b
    · rw [List.orderedInsert_of_le _ _ hr]
      rw [List.sorted_cons]
      refine ⟨?_, hs⟩
      intro c hc
      rcases List.mem_cons.mp hc with rfl | hct
      · exact hr
      · exact resLe_trans' hr (List.rel_of_sorted_cons hs c hct)
    · simp only [List.orderedInsert, if_neg hr]
      rw [List.sorted_cons] at hs ⊢
      obtain ⟨hbt, hst⟩ := hs
      refine ⟨?_, ih (fun x hx => hL x (List.mem_cons_of_mem _ hx)) hst⟩
      intro c hc
      rcases (List.mem_orderedInsert resLe).mp hc with rfl | hct
      · rcases resLe_total_of_val haL (hL b (List.mem_cons_self _ _)) with h | h
        · exact absurd h hr
        · exact h
      · exact hbt c hct

/-- The insertion sort of a list of defined scores is sorted. -/
theorem sorted_insertionSort_val (l : List (Str × Score))
    (hl : ∀ x ∈ l, x.2 ≠ Score.nan) :
    List.Sorted resLe (List.insertionSort resLe l) := by
  induction l with
  | nil => constructor
  | cons a t ih =>
    simp only [List.insertionSort]
    apply sorted_orderedInsert_val
    · exact hl a (List.mem_cons_self _ _)
    · intro x hx
      exact hl x (List.mem_cons_of_mem _ ((List.perm_insertionSort resLe t).mem_iff.mp hx))
    · exact ih (fun x hx => hl x (List.mem_cons_of_mem _ hx))

/-! ### Stability of the insertion sort

Elements selected by a predicate `p` that is contained in a single
equivalence class of the order keep their relative order: the `p`-filtered
subsequence is unchanged by sorting. -/

theorem filter_orderedInsert_pos {α : Type} (r : α → α → Prop) [DecidableRel r]
    (p : α → Bool) (a : α) (l : List α) (hpa : p a = true)
    (hcl : ∀ b, p b = true → r a b) :
    (List.orderedInsert r a l).filter p = a :: l.filter p := by
  induction l with
  | nil => simp [List.orderedInsert, hpa]
  | cons b t ih =>
    by_cases hr : r a b
    · rw [List.orderedInsert_of_le r t hr]
      rw [List.filter_cons_of_pos hpa]
    · simp only [List.orderedInsert, if_neg hr]
      have hpb : p b = false := by
        cases hpbv : p b with
        | false => rfl
        | true => exact absurd (hcl b hpbv) hr
      rw [List.filter_cons_of_neg (by simp [hpb]), ih, List.filter_cons_of_neg (by simp [hpb])]

theorem filter_orderedInsert_neg {α : Type} (r : α → α → Prop) [DecidableRel r]
    (p : α → Bool) (a : α) (l : List α) (hpa : p a = false) :
    (List.orderedInsert r a l).filter p = l.filter p := by
  induction l with
  | nil => simp [List.orderedInsert, hpa]
  | cons b t ih =>
    by_cases hr : r a b
    · rw [List.orderedInsert_of_le r t hr]
      rw [List.filter_cons_of_neg (by simp [hpa])]
    · simp only [List.orderedInsert, if_neg hr]
      by_cases hpb : p b = true
      · rw [List.filter_cons_of_pos hpb, ih, List.filter_cons_of_pos hpb]
      · have : p b = false := by simpa using hpb
        rw [List.filter_cons_of_neg (by simp [this]), ih, List.filter_cons_of_neg (by simp [this])]

theorem filter_insertionSort_class {α : Type} (r : α → α → Prop) [DecidableRel r]
    (p : α → Bool) (hp : ∀ a b, p a = true → p b = true → r a b) (l : List α) :
    (List.insertionSort r l).filter p = l.filter p := by
  induction l with
  | nil => rfl
  | cons a t ih =>
    simp only [List.insertionSort]
    by_cases hpa : p a = true
    · rw [filter_orderedInsert_pos r p a _ hpa (fun b hb => hp a b hpa hb), ih,
        List.filter_cons_of_pos hpa]
    · have hpa' : p a = false := by simpa using hpa
      rw [filter_orderedInsert_neg r p a _ hpa', ih, List.filter_cons_of_neg (by simp [hpa'])]

/-! ### Inversion helpers for the search pipeline -/

theorem search_ok_elim {C : Codecs} {qv : List ℤ} {corpus : List (Str × Str)} {k : ℕ}
    {out : List (Str × Score)} (h : search C qv corpus k = .ok out) :
    ∃ l, scoreCorpus C qv corpus = .ok l ∧ out = (sortResults l).take k := by
  unfold search at h
  cases hsc : scoreCorpus C qv corpus with
  | error e => rw [hsc] at h; exact absurd h (by simp [Except.map])
  | ok l =>
    rw [hsc] at h
    simp only [Except.map] at h
    exact ⟨l, rfl, by
      have := h
      injection this with h2
      exact h2.symm⟩

theorem scoreCorpus_mem {C : Codecs} {qv : List ℤ} {corpus : List (Str × Str)}
    {l : List (Str × Score)} {p : Str} {s : Score}
    (hl : scoreCorpus C qv corpus = .ok l) (hmem : (p, s) ∈ l) :
    ∃ c v, (p, c) ∈ corpus ∧ extract_embedding C c = .ok (some v) := by
  induction corpus generalizing l with
  | nil =>
    unfold scoreCorpus at hl
    injection hl with hl
    subst hl
    exact absurd hmem (by simp)
  | cons pc rest ih =>
    obtain ⟨p', c'⟩ := pc
    unfold scoreCorpus at hl
    cases he : extract_embedding C c' with
    | error e => rw [he] at hl; exact absurd hl (by simp)
    | ok oemb =>
      rw [he] at hl
      cases oemb with
      | none =>
        simp only [] at hl
        obtain ⟨c, v, hcv, hev⟩ := ih hl hmem
        exact ⟨c, v, List.mem_cons_of_mem _ hcv, hev⟩
      | some emb =>
        simp only [] at hl
        cases hv : jvalToVec emb with
        | none => rw [hv] at hl; exact absurd hl (by simp)
        | some vec =>
          rw [hv] at hl
          simp only [] at hl
          cases hcs : cosine_similarity qv vec with
          | error e => rw [hcs] at hl; exact absurd hl (by simp)
          | ok sc =>
            rw [hcs] at hl
            simp only [] at hl
            cases hrest : scoreCorpus C qv rest with
            | error e => rw [hrest] at hl; exact absurd hl (by simp [Except.map])
            | ok lrest =>
              rw [hrest] at hl
              simp only [Except.map] at hl
              injection hl with hl
              subst hl
              rcases List.mem_cons.mp hmem with hhead | htail
              · injection hhead with hp hs
                subst hp
                exact ⟨c', emb, List.mem_cons_self _ _, he⟩
              · obtain ⟨c, v, hcv, hev⟩ := ih hrest htail
                exact ⟨c, v, List.mem_cons_of_mem _ hcv, hev⟩

/-! ### Concrete documents used to instantiate the claims -/

/-- Narrative content that itself contains a fenced JSON block. -/
def mdFence : Str := strChars "x\n```json\nE3\n```\ny"

/-- A document whose narrative ends with an unclosed fenced block opener. -/
def docTrap : Str := strChars "---\ntitle: t\n---\nA\n```json\nE2"

/-- The file written by the first embed pass over `docTrap`. -/
def docTrap1 : Str := strChars "---\ntitle: t\n---\n\nA\n```json\nE2\n```json\nF1\n```\n"

/-- The file written by the second embed pass over `docTrap1`. -/
def docTrap2 : Str := strChars "---\ntitle: t\n---\n\nA\n```json\nF1\n```\n"

/-- A plain unembedded document. -/
def docPlain : Str := strChars "---\ntitle: t\n---\nbody"

/-- The file written by embedding `docPlain`. -/
def docPlain1 : Str := strChars "---\ntitle: t\n---\n\nbody\n```json\nF1\n```\n"

/-- A document whose header region is not valid YAML. -/
def docErr : Str := strChars "---\nzzz\n---\nx"

/-- A document with no YAML header but a valid embedding block. -/
def docNoHeader : Str := strChars "no\n```json\nE1\n```\n"

/-- An embedded document whose stored embedding is the zero vector. -/
def docZero : Str := strChars "---\ntitle: t\n---\nb\n```json\nE0\n```\n"

/-- An embedded document whose stored embedding is `[1]`. -/
def docOne : Str := strChars "---\ntitle: t\n---\nb\n```json\nE1\n```\n"

/-- A structurally valid document whose footer block decodes to a bare
number. -/
def docVal : Str := strChars "---\ntitle: x\ndoc_type: y\n---\nb\n```json\nE7\n```\n"

/-- A document whose header parses to a plain string, not a mapping. -/
def docNonMap : Str := strChars "---\nhello\n---\nbody"

/-- An already-embedded document (footer with `index.embedding`). -/
def docEmbedded : Str := strChars "---\ntitle: t\n---\nbody\n```json\nF1\n```\n"

/-- A document whose YAML header contains a fenced block inside a literal
block scalar, and whose narrative also contains a fenced block. -/
def docKHdr : Str := strChars "---\nk: |\n  ```json\n  E9\n  ```\n---\nA\n```json\nE1\n```\nB"

/-- The defined score of value 1 (dot 1, squared norms 1 and 1). -/
def sv1 : Score := Score.val ⟨1, 1, 1, by norm_num, by norm_num⟩

/-- Predicate selecting results whose score is the defined value
`1/(√1·√1)`: one equivalence class of the ranking order. -/
def tieClass : Str × Score → Bool := fun x =>
  match x.2 with
  | .val v => decide (v.d = 1) && decide (v.a = 1) && decide (v.b = 1)
  | .nan => false

instance : ∀ (pat s : Str) (j : ℕ), Decidable (Occ pat s j) := fun pat s j => by
  unfold Occ; infer_instance

/-! ### The claims -/

/-- C3 (code_bug): the spec's propagation policy says every per-file error is
caught at the batch-loop boundary, so no single bad file aborts the rest.
The code catches only `ValueError`: a YAML header parse failure raises
`yaml.YAMLError`, which escapes `process_file` and aborts `main`'s loop
before the second (valid) file is processed.  Provider failures
(`embed_text` exceptions) escape the same way. -/
theorem c3_batch_abort :
    mainLoop toyCodecs toyProv false
      [(true, strChars "a", docErr), (true, strChars "b", docPlain)]
      = .error .yamlError := by rfl

/-- C6 (code_bug): `cosine_similarity` divides by the norm product with no
zero guard; for a document whose stored embedding is the zero vector the
score is `0.0/0.0 = nan`, and the `(path, nan)` pair is still ranked and
returned, where the spec requires such documents to be excluded or ranked
lowest. -/
theorem c6_nan_ranked :
    search toyCodecs [1] [(strChars "z.ymj", docZero)] 10
      = .ok [(strChars "z.ymj", Score.nan)] := by rfl

/-- C8 (code_bug): `validate_file` is specified never to throw, but its
footer checks run `"schema" not in footer` inside a `try` that catches only
`json.JSONDecodeError`; when the footer block decodes to a bare number the
membership test raises an uncaught `TypeError` instead of returning an
error list. -/
theorem c8_validate_throws :
    validate_file toyCodecs true docVal = .error .typeError := by rfl

/-- C9 (code_bug): for a byte stream whose header text parses to a
non-mapping value, the spec says Parse fails with `InvalidHeader`; instead
`parse_ymj` returns the non-mapping value (here the plain string "hello")
as the header, which later crashes `process_file` with `AttributeError`. -/
theorem c9_nonmapping_header_returned :
    parse_ymj toyCodecs docNonMap = .ok (.jstr (strChars "hello"), strChars "body", none) := by
  rfl

/-- C1 counterexample: a valid triple whose content itself contains a fenced
JSON block does not round-trip: parsing the serialized bytes captures the
content's own block as the footer (decoding to `null`, not the serialized
footer `F1`) and truncates the content to the text before it ("x" instead
of the full content). -/
theorem c1_roundtrip_counterexample :
    parse_ymj toyCodecs (serialize_ymj toyCodecs h0 mdFence F1)
      = .ok (h0, strChars "x", some JVal.jnull)
    ∧ strChars "x" ≠ strip mdFence
    ∧ JVal.jnull ≠ F1 := by
  refine ⟨by rfl, by decide, ?_⟩
  intro h
  exact JVal.noConfusion h

/-- C2 counterexample: on a document whose narrative contains an unclosed
```` ```json ```` opener, the first embed pass writes a file in which the
regex now finds a complete (garbage) block before the real footer; the
second `force=false` call therefore does not skip: it calls the provider
again and writes again, and the file is not byte-identical. -/
theorem c2_idempotent_counterexample :
    process_file toyCodecs toyProv (strChars "s") false docTrap
      = ⟨.ok true, some docTrap1, 1⟩
    ∧ process_file toyCodecs toyProv (strChars "s") false docTrap1
      = ⟨.ok true, some docTrap2, 1⟩
    ∧ docTrap2 ≠ docTrap1 := by
  refine ⟨by rfl, by rfl, by decide⟩

/-- C4 counterexample: search never parses the header; a file with no YAML
header at all but a well-formed embedding block is ranked and returned. -/
theorem c4_headerless_ranked :
    search toyCodecs [1] [(strChars "h.ymj", docNoHeader)] 10
      = .ok [(strChars "h.ymj", sv1)]
    ∧ dash3.isPrefixOf docNoHeader = false := by
  exact ⟨by rfl, by rfl⟩

/-- C5 counterexample: for a parseable document whose header is not a
mapping, `force=true` does invoke the provider (one call) but then
`header.get` raises `AttributeError`: nothing is written and no index is
replaced, refuting "always invokes the provider AND replaces the index". -/
theorem c5_force_crash :
    process_file toyCodecs toyProv (strChars "s") true docNonMap
      = ⟨.error .attributeError, none, 1⟩ := by rfl

/-- C7 counterexample: two documents with identical stored embeddings tie;
the output preserves the corpus enumeration order (b.ymj before a.ymj),
not lexicographic path order (a.ymj is lexicographically smaller). -/
theorem c7_tie_not_lex :
    search toyCodecs [1] [(strChars "b.ymj", docOne), (strChars "a.ymj", docOne)] 10
      = .ok [(strChars "b.ymj", sv1), (strChars "a.ymj", sv1)]
    ∧ List.Lex (· < ·) (strChars "a.ymj") (strChars "b.ymj") := by
  refine ⟨by rfl, ?_⟩
  exact List.Lex.rel (by decide)

/-- C10 counterexample: when the raw header region itself contains a fenced
block opener, the extractor (which scans the whole file) captures a group
starting inside the header and fails to decode it, returning no embedding,
while `parse_ymj` (which scans only past the header) decodes the narrative's
block as the footer: the two tools do not read the same "first block after
the header". -/
theorem c10_extractor_diverges :
    parse_ymj toyCodecs docKHdr = .ok (hdrK, strChars "A", some (embFooter 1))
    ∧ extract_embedding toyCodecs docKHdr = .ok none := by
  exact ⟨by rfl, by rfl⟩

/-- C1 (amended): the round-trip law holds for triples whose content
contains no ```` ```json ```` opener, given the codec capabilities (the
YAML dump ends in a newline, contains no `---`, and re-loads to the same
header; the JSON dump starts with a non-whitespace character, contains no
``\n``` ``, and re-loads to the same footer): parsing the serialized bytes
returns the header and footer as equal structured values and the content
exactly, after trim normalization. -/
theorem c1_roundtrip_amended (C : Codecs) (hh : JVal) (md : Str) (f : JVal)
    (hYnl : (C.yamlDump hh).getLast? = some '\n')
    (hY3 : strFind dash3 (C.yamlDump hh) = none)
    (hYload : C.yamlLoads (strip (C.yamlDump hh)) = some hh)
    (hmd : strFind fenceLit md = none)
    (hJhd : headNotSpace (C.jsonDumps f) = true)
    (hJcl : strFind nlTicks (C.jsonDumps f) = none)
    (hJload : C.jsonLoads (C.jsonDumps f) = some f) :
    parse_ymj C (serialize_ymj C hh md f) = .ok (hh, strip md, some f) :=
  parse_serialize C hh hh md f hYnl hY3 hYload hmd hJhd hJcl hJload

/-- Witness for C1 amended, at the toy codec and a concrete triple. -/
theorem c1_roundtrip_amended_witness :
    parse_ymj toyCodecs (serialize_ymj toyCodecs h0 (strChars "body") F1)
      = .ok (h0, strip (strChars "body"), some F1) :=
  c1_roundtrip_amended toyCodecs h0 (strChars "body") F1 (by rfl) (by rfl) (by rfl)
    (by rfl) (by rfl) (by rfl) (by rfl)

/-- C2 (amended): on a document whose narrative contains no
```` ```json ```` opener (and under the codec capabilities of C1), a first
`force=false` embed pass performs exactly one provider call and one write,
and a second `force=false` pass on the written file skips: no provider
call, no write, file untouched. -/
theorem c2_idempotent_amended (C : Codecs) (prov : Str → Except PyExc (List ℤ))
    (stem c0 : Str) (h h2 : JVal) (kvs : List (Str × JVal)) (md : Str)
    (ft : Option JVal) (emb : List ℤ) (F : JVal) (c1 : Str)
    (hparse : parse_ymj C c0 = .ok (h, md, ft))
    (hobj : h = .jobj kvs)
    (hskip : skipCheck ft false = .ok false)
    (hprov : prov (C.yamlDump h ++ strChars "\n" ++ md) = .ok emb)
    (hF : F = mkIndexFooter ((objGet kvs (strChars "tags")).getD (.jarr []))
        ((objGet kvs (strChars "title")).getD (.jstr stem)) emb)
    (hc1 : c1 = serialize_ymj C h md F)
    (hYnl : (C.yamlDump h).getLast? = some '\n')
    (hY3 : strFind dash3 (C.yamlDump h) = none)
    (hYload : C.yamlLoads (strip (C.yamlDump h)) = some h2)
    (hmd : strFind fenceLit md = none)
    (hJhd : headNotSpace (C.jsonDumps F) = true)
    (hJcl : strFind nlTicks (C.jsonDumps F) = none)
    (hJload : C.jsonLoads (C.jsonDumps F) = some F) :
    process_file C prov stem false c0 = ⟨.ok true, some c1, 1⟩
    ∧ process_file C prov stem false c1 = ⟨.ok true, none, 0⟩ := by
  constructor
  · unfold process_file
    rw [hparse]
    simp only []
    rw [hskip]
    simp only []
    rw [hprov]
    simp only []
    rw [hobj]
    simp only [headerTagsTitle]
    rw [hc1, hF, hobj]
  · have hp2 : parse_ymj C c1 = .ok (h2, strip md, some F) := by
      rw [hc1]
      exact parse_serialize C h h2 md F hYnl hY3 hYload hmd hJhd hJcl hJload
    have hsk : skipCheck (some F) false = .ok true := by rw [hF]; rfl
    unfold process_file
    rw [hp2]
    simp only []
    rw [hsk]

/-- Witness for C2 amended: embedding `docPlain` once writes `docPlain1`;
running again on `docPlain1` skips with no provider call and no write. -/
theorem c2_idempotent_amended_witness :
    process_file toyCodecs toyProv (strChars "s") false docPlain
      = ⟨.ok true, some docPlain1, 1⟩
    ∧ process_file toyCodecs toyProv (strChars "s") false docPlain1
      = ⟨.ok true, none, 0⟩ :=
  c2_idempotent_amended toyCodecs toyProv (strChars "s") docPlain h0 h0
    [(strChars "title", .jstr (strChars "t"))] (strChars "body") none [1] F1 docPlain1
    (by rfl) (by rfl) (by rfl) (by rfl) (by rfl) (by rfl) (by rfl) (by rfl) (by rfl)
    (by rfl) (by rfl) (by rfl) (by rfl)

/-- C4 (amended): a document from which no embedding value can be extracted
(no fenced block, undecodable block, or missing `index.embedding`) never
appears in the ranked output; absence of a header alone does not exclude a
document (see the counterexample). -/
theorem c4_unindexed_excluded (C : Codecs) (qv : List ℤ) (corpus : List (Str × Str))
    (k : ℕ) (p c : Str) (out : List (Str × Score))
    (hmem : (p, c) ∈ corpus)
    (huniq : ∀ c', (p, c') ∈ corpus → c' = c)
    (hno : ∀ v, extract_embedding C c ≠ .ok (some v))
    (hs : search C qv corpus k = .ok out) :
    ∀ s, (p, s) ∉ out := by
  intro s hmemout
  obtain ⟨l, hl, hout⟩ := search_ok_elim hs
  rw [hout] at hmemout
  have h1 : (p, s) ∈ sortResults l := List.take_subset _ _ hmemout
  have h2 : (p, s) ∈ l := (List.perm_insertionSort resLe l).mem_iff.mp h1
  obtain ⟨c', v, hc', hev⟩ := scoreCorpus_mem hl h2
  have hcc : c' = c := huniq c' hc'
  subst hcc
  exact hno v hev

/-- Witness for C4 amended: a corpus of one unembedded document produces an
empty ranking, in which the document does not appear. -/
theorem c4_unindexed_excluded_witness :
    search toyCodecs [1] [(strChars "n.ymj", docPlain)] 10 = .ok []
    ∧ (strChars "n.ymj", Score.nan) ∉ ([] : List (Str × Score)) := by
  refine ⟨by rfl, ?_⟩
  exact c4_unindexed_excluded toyCodecs [1] [(strChars "n.ymj", docPlain)] 10
    (strChars "n.ymj") docPlain [] (by simp)
    (fun c' hc' => by
      have := List.mem_singleton.mp hc'
      injection this with h1 h2)
    (fun v hv => by
      rw [show extract_embedding toyCodecs docPlain = Except.ok none from rfl] at hv
      simp at hv)
    (by rfl) Score.nan

/-- C5 (amended): for any parseable document whose header is a mapping and
whose skip test evaluates without an exception, `force=true` always invokes
the provider (exactly once) and writes a full replacement: the narrative
kept, the old footer discarded, and a fresh index with `schema=1`, `tags`
from the header (empty list if absent), `title` from the header (file stem
if absent) and the returned embedding. -/
theorem c5_force_reembed_amended (C : Codecs) (prov : Str → Except PyExc (List ℤ))
    (stem c : Str) (h : JVal) (kvs : List (Str × JVal)) (md : Str) (ft : Option JVal)
    (emb : List ℤ)
    (hparse : parse_ymj C c = .ok (h, md, ft))
    (hobj : h = .jobj kvs)
    (hskip : skipCheck ft true = .ok false)
    (hprov : prov (C.yamlDump h ++ strChars "\n" ++ md) = .ok emb) :
    process_file C prov stem true c
      = ⟨.ok true, some (serialize_ymj C h md (mkIndexFooter
          ((objGet kvs (strChars "tags")).getD (.jarr []))
          ((objGet kvs (strChars "title")).getD (.jstr stem)) emb)), 1⟩ := by
  unfold process_file
  rw [hparse]
  simp only []
  rw [hskip]
  simp only []
  rw [hprov]
  simp only []
  rw [hobj]
  simp only [headerTagsTitle]

/-- Witness for C5 amended: an already-embedded document is re-embedded
under `force=true`: one provider call, footer fully replaced. -/
theorem c5_force_reembed_amended_witness :
    process_file toyCodecs toyProv (strChars "s") true docEmbedded
      = ⟨.ok true, some (serialize_ymj toyCodecs h0 (strChars "body") (mkIndexFooter
          ((objGet [(strChars "title", JVal.jstr (strChars "t"))] (strChars "tags")).getD
            (.jarr []))
          ((objGet [(strChars "title", JVal.jstr (strChars "t"))] (strChars "title")).getD
            (.jstr (strChars "s"))) [1])), 1⟩ :=
  c5_force_reembed_amended toyCodecs toyProv (strChars "s") docEmbedded h0
    [(strChars "title", .jstr (strChars "t"))] (strChars "body") (some F1) [1]
    (by rfl) (by rfl) (by rfl) (by rfl)

/-- C7 (amended): when every ranked score is defined (no `nan` from a
zero-magnitude query or stored vector — the case C6 shows is mishandled,
where Python's comparator is incoherent and the printed order
algorithm-dependent), the ranked output is the stable descending sort of
the scored list in corpus-enumeration order, truncated to `top_k`: it is
sorted (each entry's score is at least the next one's), and any set of
mutually tied entries keeps its corpus-enumeration order — not
lexicographic path order (see the counterexample).  Determinism holds
relative to that enumeration order, which `Path.rglob` does not itself
sort. -/
theorem c7_sort_stable_amended (C : Codecs) (qv : List ℤ) (corpus : List (Str × Str))
    (k : ℕ) (l : List (Str × Score))
    (hl : scoreCorpus C qv corpus = .ok l)
    (hdef : ∀ x ∈ l, x.2 ≠ Score.nan) :
    search C qv corpus k = .ok ((sortResults l).take k)
    ∧ List.Sorted resLe (sortResults l)
    ∧ ∀ p : Str × Score → Bool,
        (∀ a b, p a = true → p b = true → resLe a b) →
        (sortResults l).filter p = l.filter p := by
  refine ⟨?_, ?_, ?_⟩
  · unfold search
    rw [hl]
    rfl
  · exact sorted_insertionSort_val l hdef
  · intro p hp
    exact filter_insertionSort_class resLe p hp l

/-- Witness for C7 amended, at a two-document tie. -/
theorem c7_sort_stable_amended_witness :
    search toyCodecs [1] [(strChars "b.ymj", docOne), (strChars "a.ymj", docOne)] 10
      = .ok ((sortResults [(strChars "b.ymj", sv1), (strChars "a.ymj", sv1)]).take 10)
    ∧ List.Sorted resLe (sortResults [(strChars "b.ymj", sv1), (strChars "a.ymj", sv1)])
    ∧ (sortResults [(strChars "b.ymj", sv1), (strChars "a.ymj", sv1)]).filter tieClass
        = [(strChars "b.ymj", sv1), (strChars "a.ymj", sv1)].filter tieClass := by
  obtain ⟨h1, h2, h3⟩ := c7_sort_stable_amended toyCodecs [1]
    [(strChars "b.ymj", docOne), (strChars "a.ymj", docOne)] 10
    [(strChars "b.ymj", sv1), (strChars "a.ymj", sv1)] (by rfl)
    (by
      intro x hx
      rcases List.mem_cons.mp hx with rfl | hx
      · simp [sv1]
      · rcases List.mem_singleton.mp hx with rfl
        simp [sv1])
  refine ⟨h1, h2, h3 tieClass ?_⟩
  intro a b ha hb
  obtain ⟨pa, sa⟩ := a
  obtain ⟨pb, sb⟩ := b
  cases sa with
  | nan => exact absurd ha (by simp [tieClass])
  | val va =>
    cases sb with
    | nan => exact absurd hb (by simp [tieClass])
    | val vb =>
      simp only [tieClass, Bool.and_eq_true, decide_eq_true_eq] at ha hb
      obtain ⟨⟨had, haa⟩, hab⟩ := ha
      obtain ⟨⟨hbd, hba⟩, hbb⟩ := hb
      show svLe vb va
      unfold svLe
      refine Or.inr (Or.inl ⟨?_, ?_, ?_⟩)
      · rw [hbd]; norm_num
      · rw [had]; norm_num
      · rw [hbd, had, haa, hab, hba, hbb]

/-- C10 (amended): when no fenced-block opener occurs before the end of the
header fence, both tools agree on the same first block after the header:
`parse_ymj` decodes that block's group as the footer and truncates the
content to the text before it, and `extract_embedding` reads
`index.embedding` from the very same decoded block. -/
theorem c10_first_block_amended (C : Codecs) (s : Str) (he st : ℕ) (g : Str) (h f : JVal)
    (hpre : dash3.isPrefixOf s = true)
    (hfind : findFrom3 s = some he)
    (hload : C.yamlLoads (strip (seg s 3 he)) = some h)
    (hhdr : ∀ j < he + 3, ¬ Occ fenceLit s j)
    (hre : reSearch (s.drop (he + 3)) = some (st, g))
    (hJ : C.jsonLoads g = some f) :
    parse_ymj C s = .ok (h, strip ((s.drop (he + 3)).take st), some f)
    ∧ extract_embedding C s = indexEmbeddingOf f := by
  constructor
  · unfold parse_ymj
    rw [if_pos hpre, hfind]
    simp only []
    rw [hload]
    simp only []
    rw [hre]
    simp only []
    rw [hJ]
  · have hres : reSearch s = some (he + 3 + st, g) := by
      obtain ⟨hbef, hat⟩ := reSearch_some_elim hre
      apply reSearch_some_of
      · intro j hj
        rcases Nat.lt_or_ge j (he + 3) with hj1 | hj2
        · exact matchFence_none_of_not_occ (hhdr j hj1)
        · rw [show s.drop j = (s.drop (he + 3)).drop (j - (he + 3)) from by
            rw [List.drop_drop]
            congr 1
            omega]
          exact hbef (j - (he + 3)) (by omega)
      · rw [show s.drop (he + 3 + st) = (s.drop (he + 3)).drop st from by
          rw [List.drop_drop]]
        exact hat
    unfold extract_embedding
    rw [hres]
    simp only []
    rw [hJ]

/-- Witness for C10 amended, at an ordinary embedded document. -/
theorem c10_first_block_amended_witness :
    parse_ymj toyCodecs docOne
      = .ok (h0, strip ((docOne.drop (13 + 3)).take 3), some (embFooter 1))
    ∧ extract_embedding toyCodecs docOne = indexEmbeddingOf (embFooter 1) :=
  c10_first_block_amended toyCodecs docOne 13 3 (strChars "E1") h0 (embFooter 1)
    (by rfl) (by rfl) (by rfl) (by decide) (by rfl) (by rfl)
